import Mathlib

/-!
Verification of the container duplicate-file deduplicator (`src/analyzer.rs`
and its helpers) against its specification.

The Rust source is shallowly embedded: tar archives become lists of entries,
byte streams become `List Nat`, the file system becomes a partial map from
path strings to byte lists, and the external hash / compression libraries
(rapidhash, sha2, flate2) are taken as abstract function parameters, since
only their use — never their internals — is relevant to the claims.
-/

namespace DedupSpec

/-- Tar entry types, as distinguished by `tar::EntryType` in the source.
`regular` stands for the entry types for which `entry_type().is_file()`
returns true. -/
inductive TarEntryType where
  | regular
  | directory
  | symlink
  | link
  | other
deriving DecidableEq, Repr

/-- `entry_type().is_file()` from the tar crate, as used by `scan_layer`. -/
def TarEntryType.is_file : TarEntryType → Bool
  | .regular => true
  | _ => false

/-- The header fields of a tar entry that the analyzer reads or writes
(`tar::Header`). -/
structure TarHeader where
  path : String
  size : Nat
  mode : Nat
  uid : Nat
  gid : Nat
  mtime : Nat
  etype : TarEntryType
  linkName : Option String
deriving DecidableEq, Repr

/-- One tar archive entry: its header plus its content bytes. -/
structure TarEntry where
  header : TarHeader
  content : List Nat
deriving DecidableEq, Repr

/-- `FileInfo` from `src/analyzer.rs`. -/
structure FileInfo where
  path : String
  size : Nat
  hash : String
  layer_index : Nat
deriving DecidableEq, Repr

/-- `DuplicateInfo` from `src/analyzer.rs`. -/
structure DuplicateInfo where
  original : FileInfo
  duplicates : List FileInfo
  total_savings : Nat
deriving DecidableEq, Repr

/-- `LinkType` from `src/analyzer.rs`. -/
inductive LinkType where
  | Sym
  | Hard
deriving DecidableEq, Repr

/-- `DeDupTransaction` from `src/analyzer.rs`. -/
structure DeDupTransaction where
  layer : Nat
  original_path : String
  target_path : String
  link_type : LinkType
deriving DecidableEq, Repr

/-- `Layer` from `src/analyzer.rs`: backing path, ordinal index, and the
digest recorded for it (diff id at load time, recomputed digest after a
rewrite). -/
structure Layer where
  path : String
  layer_index : Nat
  hash : String
deriving DecidableEq, Repr

/-- `Manifest` from `src/schemas.rs` (the fields the analyzer touches). -/
structure Manifest where
  config : String
  repo_tags : List String
  layers : List String
deriving DecidableEq, Repr

/-- `RootFs` from `src/schemas.rs`. -/
structure RootFs where
  fs_type : String
  diff_ids : List String
deriving DecidableEq, Repr

/-- `DockerConfig` from `src/schemas.rs`, restricted to the fields the
analyzer reads or rewrites; all other fields are cloned through unchanged
by the source, so they are irrelevant to the claims. -/
structure DockerConfig where
  architecture : String
  os : String
  rootfs : RootFs
deriving DecidableEq, Repr

/-! ## Layer reader (`is_gzipped`, `Layer::open_reader`) -/

/-- A file system: a partial map from path strings to file contents.
`none` models a file that cannot be opened. -/
def FileSys : Type := String → Option (List Nat)

/-- The decoded reader produced by `Layer::open_reader`: either the raw
file stream or the same stream wrapped in a streaming gzip decoder. -/
inductive LayerReader where
  | gz (bytes : List Nat)
  | plain (bytes : List Nat)
deriving DecidableEq, Repr

/-- `GZIP_MAGIC_BYTES` from `src/analyzer.rs`. -/
def GZIP_MAGIC_BYTES : List Nat := [0x1f, 0x8b]

/-- `is_gzipped` from `src/analyzer.rs`: open the file, `read_exact` two
bytes (an error when the file is unopenable or holds fewer than two bytes),
and compare them with the gzip signature. -/
def is_gzipped (fs : FileSys) (p : String) : Except String Bool :=
  match fs p with
  | none => .error "open failed"
  | some bytes =>
      if bytes.length < 2 then .error "failed to fill whole buffer"
      else .ok (bytes.take 2 == GZIP_MAGIC_BYTES)

/-- `Layer::open_reader` from `src/analyzer.rs`: open the backing file and
wrap it in a gzip decoder exactly when `is_gzipped` answers true. -/
def open_reader (fs : FileSys) (p : String) : Except String LayerReader :=
  match fs p with
  | none => .error "open failed"
  | some bytes =>
      match is_gzipped fs p with
      | .error e => .error e
      | .ok true => .ok (.gz bytes)
      | .ok false => .ok (.plain bytes)

/-! ## Fingerprint scanner (`Analyzer::scan_layer`) -/

/-- The whiteout test of `scan_layer`:
`path.contains("/.wh.") || path.ends_with(".wh..wh..opq")`. -/
def isWhiteout (p : String) : Bool :=
  decide ("/.wh.".data <:+: p.data) || decide (".wh..wh..opq".data <:+ p.data)

/-- `Analyzer::scan_layer` from `src/analyzer.rs`, for one layer whose tar
entries are `entries`. `H` is the content fingerprint function
(`rapidhash_v3_file_seeded` with seed 0, rendered to a string), taken
abstract. Mirrors the source's loop: skip non-file entries, entries whose
declared size is below `min_size`, and whiteout paths; hash everything
else. -/
def scan_layer (H : List Nat → String) (min_size : Nat) (layer_index : Nat) :
    List TarEntry → List FileInfo
  | [] => []
  | e :: es =>
      if !e.header.etype.is_file then
        scan_layer H min_size layer_index es
      else if e.header.size < min_size then
        scan_layer H min_size layer_index es
      else if isWhiteout e.header.path then
        scan_layer H min_size layer_index es
      else
        { path := e.header.path, size := e.header.size,
          hash := H e.content, layer_index := layer_index }
          :: scan_layer H min_size layer_index es

/-! ## Duplicate grouper (`Analyzer::find_duplicates`)

`find_duplicates` groups the scanned files in a `std::collections::HashMap`
keyed by fingerprint.  The map's iteration order is arbitrary (and, with the
standard library's randomized hasher, differs between runs), so the model
takes the order in which the keys are visited as an explicit parameter
`keyOrder`.  For every key the map's value vector holds the files with that
fingerprint in insertion order — which is their order in the scanned file
list — so it equals a `filter` of that list. -/

/-- The sort relation of `files.sort_by_key(|f| f.layer_index)`. -/
def layerLE (a b : FileInfo) : Prop := a.layer_index ≤ b.layer_index

instance : DecidableRel layerLE := fun a b => Nat.decLe a.layer_index b.layer_index

instance : IsTotal FileInfo layerLE := ⟨fun a b => Nat.le_total a.layer_index b.layer_index⟩

instance : IsTrans FileInfo layerLE := ⟨fun _ _ _ h1 h2 => Nat.le_trans h1 h2⟩

/-- The sort relation of `.sorted_by_key(|d| Reverse(d.total_savings))`:
descending total savings. -/
def savingsGE (a b : DuplicateInfo) : Prop := b.total_savings ≤ a.total_savings

instance : DecidableRel savingsGE := fun a b => Nat.decLe b.total_savings a.total_savings

instance : IsTotal DuplicateInfo savingsGE :=
  ⟨fun a b => (Nat.le_total b.total_savings a.total_savings).imp id id⟩

instance : IsTrans DuplicateInfo savingsGE := ⟨fun _ _ _ h1 h2 => Nat.le_trans h2 h1⟩

/-- The value vector of the fingerprint map at key `h`: the scanned files
with that fingerprint, in scan order. -/
def groupFor (files : List FileInfo) (h : String) : List FileInfo :=
  files.filter (fun f => f.hash == h)

/-- `files.sort_by_key(|f| f.layer_index)` — Rust's stable sort, modelled
by (stable) insertion sort. -/
def sortByLayer (g : List FileInfo) : List FileInfo :=
  List.insertionSort layerLE g

/-- The body of `find_duplicates`'s `map` closure: sort a fingerprint group
by layer index, `remove(0)` the first element as the original, and compute
the savings.  The empty case is unreachable in context (groups are filtered
to length > 1) and returns a junk value. -/
def mkDupInfo (g : List FileInfo) : DuplicateInfo :=
  match sortByLayer g with
  | [] => { original := { path := "", size := 0, hash := "", layer_index := 0 },
            duplicates := [], total_savings := 0 }
  | t :: rest =>
      { original := t, duplicates := rest, total_savings := t.size * rest.length }

/-- `Analyzer::find_duplicates` from `src/analyzer.rs`, with the scanned
file list and the hash map's key iteration order made explicit: visit the
groups in `keyOrder` order, keep those with more than one member, build a
`DuplicateInfo` from each, and stably sort by descending savings. -/
def find_duplicates (files : List FileInfo) (keyOrder : List String) :
    List DuplicateInfo :=
  List.insertionSort savingsGE
    (((keyOrder.map (groupFor files)).filter (fun g => decide (1 < g.length))).map mkDupInfo)

/-- A key list is a possible `HashMap` iteration order for `files` when it
lists exactly the distinct fingerprints of `files`, each once. -/
def validKeyOrder (files : List FileInfo) (keyOrder : List String) : Bool :=
  keyOrder.Nodup
    && (files.map FileInfo.hash).all (fun h => h ∈ keyOrder)
    && keyOrder.all (fun h => h ∈ files.map FileInfo.hash)

/-! ## Link plan builder (`Analyzer::generate_modification_plan`) -/

/-- One `DeDupTransaction` of `generate_modification_plan`, for duplicate
member `f` of group `d`. -/
def mkTrans (d : DuplicateInfo) (f : FileInfo) : DeDupTransaction :=
  { layer := f.layer_index,
    original_path := d.original.path,
    target_path := f.path,
    link_type :=
      if d.original.layer_index == f.layer_index then LinkType.Hard
      else LinkType.Sym }

/-- The `(key, value)` pair stream fed into `into_group_map` by
`generate_modification_plan`: one pair per duplicate member of every group,
keyed by the member's layer index. -/
def planPairs (dups : List DuplicateInfo) : List (Nat × DeDupTransaction) :=
  dups.flatMap (fun d => d.duplicates.map (fun f => (f.layer_index, mkTrans d f)))

/-- `Analyzer::generate_modification_plan` from `src/analyzer.rs`, viewed
at key `k`: `itertools::into_group_map` collects, for each key, the values of
the pairs carrying that key in encounter order. -/
def generate_modification_plan (dups : List DuplicateInfo) (k : Nat) :
    List DeDupTransaction :=
  ((planPairs dups).filter (fun p => p.1 == k)).map Prod.snd

/-- All transactions the plan emits, across every layer, in group order. -/
def allTrans (dups : List DuplicateInfo) : List DeDupTransaction :=
  dups.flatMap (fun d => d.duplicates.map (mkTrans d))

/-! ## Layer rewriter (`Analyzer::build_layer_tar`) -/

/-- The `mods_by_target` lookup of `build_layer_tar`, queried at path `p`.
The source builds a `HashMap` from target path to transaction and only asks
`contains_key`, so a list lookup is an equivalent model. -/
def mods_by_target (mods : List DeDupTransaction) (p : String) :
    Option DeDupTransaction :=
  mods.find? (fun m => m.target_path == p)

/-- The entry-copying loop of `build_layer_tar`: re-stream the original
entries in order, dropping every entry whose path is a transaction target
and copying every other entry (header and content) unchanged. -/
def copyEntries (mods : List DeDupTransaction) : List TarEntry → List TarEntry
  | [] => []
  | e :: es =>
      if (mods_by_target mods e.header.path).isSome then copyEntries mods es
      else e :: copyEntries mods es

/-- The link entry appended by `build_layer_tar` for one transaction: a GNU
header with mode `0o777`, uid 0, gid 0, mtime 0 and entry type `Symlink`,
whose name is the transaction's target path and whose link name is the
original's path.  The source matches on the link type with two identical
`append_link` arms, mirrored here. -/
def linkEntry (m : DeDupTransaction) : TarEntry :=
  match m.link_type with
  | LinkType.Sym =>
      { header := { path := m.target_path, size := 0, mode := 0o777, uid := 0,
                    gid := 0, mtime := 0, etype := TarEntryType.symlink,
                    linkName := some m.original_path },
        content := [] }
  | LinkType.Hard =>
      { header := { path := m.target_path, size := 0, mode := 0o777, uid := 0,
                    gid := 0, mtime := 0, etype := TarEntryType.symlink,
                    linkName := some m.original_path },
        content := [] }

/-- The link-appending loop of `build_layer_tar`: one link entry per
transaction, in transaction order. -/
def appendLinks (mods : List DeDupTransaction) : List TarEntry :=
  mods.map linkEntry

/-- `Analyzer::build_layer_tar` from `src/analyzer.rs`, at the granularity
of tar entries: the copied original entries followed by the appended link
entries. -/
def build_layer_tar (entries : List TarEntry) (mods : List DeDupTransaction) :
    List TarEntry :=
  copyEntries mods entries ++ appendLinks mods

/-! ## Image reassembly (`process_layer`, `update_manifest`,
`update_config`, `create_deduplicated_image`, `load_from_tar`)

The abstract parameters: `sha` is SHA-256 rendered as a lowercase hex
string (`format!("{:x}", hasher.finalize())`), `gzc` is gzip compression of
a byte stream, and `tarSer` is the byte serialization the `tar::Builder`
applies to an entry sequence. -/

/-- One layer of the loaded image together with the backing bytes the file
system holds at `layer.path` and the tar entries those bytes decode to. -/
structure LayerInput where
  layer : Layer
  diskBytes : List Nat
  entries : List TarEntry
deriving DecidableEq, Repr

/-- `Analyzer::process_layer` from `src/analyzer.rs`: rewrite the layer's
tar, hash the uncompressed stream through the tee writer, store either the
raw tar or its gzip compression, and return the new `Layer` (whose `hash`
is the `sha256:`-prefixed uncompressed digest) together with the bytes
written to the new layer file. -/
def process_layer (sha : List Nat → String) (gzc : List Nat → List Nat)
    (tarSer : List TarEntry → List Nat) (no_compression : Bool)
    (li : LayerInput) (mods : List DeDupTransaction) : Layer × List Nat :=
  let filename :=
    if no_compression then "layer-" ++ toString li.layer.layer_index ++ ".tar"
    else "layer-" ++ toString li.layer.layer_index ++ ".tar.gz"
  let uncompressed := tarSer (build_layer_tar li.entries mods)
  let hash := "sha256:" ++ sha uncompressed
  let disk := if no_compression then uncompressed else gzc uncompressed
  ({ path := "new_layers/" ++ filename,
     layer_index := li.layer.layer_index,
     hash := hash },
   disk)

/-- The parallel layer-processing step of `create_deduplicated_image`:
layers whose index has an entry in the plan are rewritten, the rest are
cloned unchanged.  Each resulting layer is paired with its on-disk bytes. -/
def newLayers (sha : List Nat → String) (gzc : List Nat → List Nat)
    (tarSer : List TarEntry → List Nat) (no_compression : Bool)
    (layers : List LayerInput) (plan : Nat → Option (List DeDupTransaction)) :
    List (Layer × List Nat) :=
  layers.map (fun li =>
    match plan li.layer.layer_index with
    | some mods => process_layer sha gzc tarSer no_compression li mods
    | none => (li.layer, li.diskBytes))

/-- `Analyzer::update_manifest` from `src/analyzer.rs`: for each new layer,
in the `no_compression` case reference `blobs/sha256/<layer.hash>` without
writing any blob; otherwise hash the layer file's bytes, copy them to
`blobs/sha256/<digest>` and reference that path.  Returns the rewritten
manifest (layer references replaced, repo tags overwritten) and the list of
blob files written into the staging tree. -/
def update_manifest (sha : List Nat → String) (no_compression : Bool)
    (original_manifest : Manifest) (new_layers : List (Layer × List Nat)) :
    Manifest × List (String × List Nat) :=
  let refs_and_blobs : List (String × Option (String × List Nat)) :=
    new_layers.map (fun ld =>
      if no_compression then
        ("blobs/sha256/" ++ ld.1.hash, none)
      else
        let digest := sha ld.2
        ("blobs/sha256/" ++ digest, some ("blobs/sha256/" ++ digest, ld.2)))
  ({ original_manifest with
      layers := refs_and_blobs.map Prod.fst,
      repo_tags := ["test:smaller"] },
   refs_and_blobs.filterMap Prod.snd)

/-- `Analyzer::update_config` from `src/analyzer.rs`: replace the config's
`rootfs.diff_ids` by the new layers' recorded hashes, index-aligned;
everything else is cloned. -/
def update_config (original_config : DockerConfig)
    (new_layers : List (Layer × List Nat)) : DockerConfig :=
  { original_config with
      rootfs := { original_config.rootfs with
                    diff_ids := new_layers.map (fun ld => ld.1.hash) } }

/-- The staged output tree produced by `create_deduplicated_image` before
final packing: the rewritten manifest and config plus the blob files
written under `blobs/sha256/`. -/
structure StagedImage where
  manifest : Manifest
  config : DockerConfig
  blobs : List (String × List Nat)
deriving DecidableEq, Repr

/-- `Analyzer::create_deduplicated_image` from `src/analyzer.rs`, returning
the staged output tree that is packed into the final archive: process every
layer according to the plan, then rewrite config and manifest. -/
def create_deduplicated_image (sha : List Nat → String)
    (gzc : List Nat → List Nat) (tarSer : List TarEntry → List Nat)
    (no_compression : Bool) (layers : List LayerInput)
    (plan : Nat → Option (List DeDupTransaction))
    (original_manifest : Manifest) (original_config : DockerConfig) :
    StagedImage :=
  let nl := newLayers sha gzc tarSer no_compression layers plan
  let cfg := update_config original_config nl
  let mb := update_manifest sha no_compression original_manifest nl
  { manifest := mb.1, config := cfg, blobs := mb.2 }

/-- The layer-construction step of `Analyzer::load_from_tar`
(`src/analyzer.rs`): one `Layer` per manifest layer reference, with
`hash = config.rootfs.diff_ids.get(idx).cloned().unwrap_or_default()` —
the empty string when `diff_ids` is too short.  The enumeration counter is
made explicit. -/
def load_layers_from (extracted : String) (diff_ids : List String) :
    Nat → List String → List Layer
  | _, [] => []
  | idx, l :: ls =>
      { path := extracted ++ "/" ++ l,
        layer_index := idx,
        hash := diff_ids.getD idx "" }
        :: load_layers_from extracted diff_ids (idx + 1) ls

/-- The `layers` field computed by `Analyzer::load_from_tar` for a loaded
manifest and config. -/
def load_layers (extracted : String) (manifest : Manifest)
    (config : DockerConfig) : List Layer :=
  load_layers_from extracted config.rootfs.diff_ids 0 manifest.layers

/-! ## Helper lemmas -/

theorem mods_by_target_isSome (mods : List DeDupTransaction) (p : String) :
    (mods_by_target mods p).isSome
      = mods.any (fun m => m.target_path == p) := by
  induction mods with
  | nil => rfl
  | cons m ms ih =>
      by_cases h : m.target_path == p
      · simp [mods_by_target, List.find?, h]
      · simp only [mods_by_target, List.find?, h] at ih ⊢
        simpa [h] using ih

theorem copyEntries_eq_filter (mods : List DeDupTransaction)
    (entries : List TarEntry) :
    copyEntries mods entries =
      entries.filter
        (fun e => !(mods.any (fun m => m.target_path == e.header.path))) := by
  induction entries with
  | nil => rfl
  | cons e es ih =>
      by_cases h : (mods_by_target mods e.header.path).isSome
      · have hany : mods.any (fun m => m.target_path == e.header.path) = true := by
          rw [← mods_by_target_isSome]; exact h
        simp [copyEntries, h, List.filter_cons, hany, ih]
      · have hany : mods.any (fun m => m.target_path == e.header.path) = false := by
          rw [← mods_by_target_isSome]; exact Bool.of_not_eq_true h
        simp [copyEntries, h, List.filter_cons, hany, ih]

/-! ## C8: gzip detection by magic bytes only -/

/-- **C8**: `Layer::open_reader` wraps the backing byte source in a gzip
decoder exactly when its first two bytes equal the gzip signature
`0x1f 0x8b`, and otherwise passes the source through unchanged; the
decision depends only on those bytes (two paths with the same content get
the same reader), and an unopenable source or one with fewer than two
readable bytes yields an error. -/
theorem open_reader_spec (fs : FileSys) (p : String) :
    (fs p = none → ∃ e, open_reader fs p = .error e) ∧
    (∀ bytes, fs p = some bytes →
      (bytes.length < 2 → ∃ e, open_reader fs p = .error e) ∧
      (2 ≤ bytes.length →
        (open_reader fs p = .ok (.gz bytes) ↔
          bytes.take 2 = GZIP_MAGIC_BYTES) ∧
        (open_reader fs p = .ok (.plain bytes) ↔
          ¬ bytes.take 2 = GZIP_MAGIC_BYTES)) ∧
      (∀ p', fs p' = some bytes → open_reader fs p = open_reader fs p')) := by
  constructor
  · intro h
    exact ⟨"open failed", by simp [open_reader, h]⟩
  · intro bytes hb
    refine ⟨?_, ?_, ?_⟩
    · intro hlen
      exact ⟨"failed to fill whole buffer",
        by simp [open_reader, is_gzipped, hb, hlen]⟩
    · intro hlen
      have hnlt : ¬ bytes.length < 2 := Nat.not_lt.mpr hlen
      by_cases hm : bytes.take 2 = GZIP_MAGIC_BYTES
      · constructor
        · simp [open_reader, is_gzipped, hb, hnlt, hm]
        · simp [open_reader, is_gzipped, hb, hnlt, hm]
      · have hm' : (bytes.take 2 == GZIP_MAGIC_BYTES) = false :=
          beq_eq_false_iff_ne.mpr hm
        constructor
        · simp [open_reader, is_gzipped, hb, hnlt, hm', hm]
        · simp [open_reader, is_gzipped, hb, hnlt, hm', hm]
    · intro p' hp'
      by_cases hlen : bytes.length < 2
      · simp [open_reader, is_gzipped, hb, hp', hlen]
      · simp [open_reader, is_gzipped, hb, hp', hlen]

/-- A tiny concrete file system exercising `open_reader`. -/
def sampleFS : FileSys := fun p =>
  if p == "layers/a" then some [0x1f, 0x8b, 7, 7]
  else if p == "layers/b" then some [0x75, 0x73, 0x74, 0x61] else none

theorem open_reader_spec_witness :
    open_reader sampleFS "layers/a" = .ok (.gz [0x1f, 0x8b, 7, 7]) ∧
    open_reader sampleFS "layers/b" = .ok (.plain [0x75, 0x73, 0x74, 0x61]) :=
  ⟨(((open_reader_spec sampleFS "layers/a").2 [0x1f, 0x8b, 7, 7] rfl).2.1
      (by decide)).1.mpr (by decide),
   (((open_reader_spec sampleFS "layers/b").2 [0x75, 0x73, 0x74, 0x61] rfl).2.1
      (by decide)).2.mpr (by decide)⟩

/-! ## C6: scanner threshold and whiteout filtering -/

/-- **C6**: `scan_layer` keeps a regular-file entry whose declared size
equals the minimum-size threshold (provided it is not a whiteout marker),
every emitted record has size at least the threshold (so an entry strictly
smaller contributes nothing), and no emitted record has a whiteout path —
even for a regular file at or above the threshold. -/
theorem scan_layer_spec (H : List Nat → String) (min_size layer_index : Nat)
    (entries : List TarEntry) :
    (∀ e ∈ entries, e.header.etype.is_file = true → e.header.size = min_size →
      isWhiteout e.header.path = false →
      ({ path := e.header.path, size := e.header.size, hash := H e.content,
         layer_index := layer_index } : FileInfo)
        ∈ scan_layer H min_size layer_index entries) ∧
    (∀ fi ∈ scan_layer H min_size layer_index entries, min_size ≤ fi.size) ∧
    (∀ fi ∈ scan_layer H min_size layer_index entries,
      isWhiteout fi.path = false) := by
  induction entries with
  | nil => exact ⟨by simp, by simp [scan_layer], by simp [scan_layer]⟩
  | cons e es ih =>
      obtain ⟨ih1, ih2, ih3⟩ := ih
      by_cases hf : e.header.etype.is_file
      · by_cases hs : e.header.size < min_size
        · have hred : scan_layer H min_size layer_index (e :: es)
              = scan_layer H min_size layer_index es := by
            simp [scan_layer, hf, hs]
          refine ⟨?_, ?_, ?_⟩
          · intro e' he' hf' hsz' hw'
            rcases List.mem_cons.mp he' with rfl | he'
            · exact absurd hs (by omega)
            · rw [hred]; exact ih1 e' he' hf' hsz' hw'
          · intro fi hfi; rw [hred] at hfi; exact ih2 fi hfi
          · intro fi hfi; rw [hred] at hfi; exact ih3 fi hfi
        · by_cases hw : isWhiteout e.header.path
          · have hred : scan_layer H min_size layer_index (e :: es)
                = scan_layer H min_size layer_index es := by
              simp [scan_layer, hf, hs, hw]
            refine ⟨?_, ?_, ?_⟩
            · intro e' he' hf' hsz' hw'
              rcases List.mem_cons.mp he' with rfl | he'
              · exact absurd hw (by simp [hw'])
              · rw [hred]; exact ih1 e' he' hf' hsz' hw'
            · intro fi hfi; rw [hred] at hfi; exact ih2 fi hfi
            · intro fi hfi; rw [hred] at hfi; exact ih3 fi hfi
          · have hred : scan_layer H min_size layer_index (e :: es)
                = { path := e.header.path, size := e.header.size,
                    hash := H e.content, layer_index := layer_index }
                  :: scan_layer H min_size layer_index es := by
              simp [scan_layer, hf, hs, hw]
            refine ⟨?_, ?_, ?_⟩
            · intro e' he' hf' hsz' hw'
              rcases List.mem_cons.mp he' with rfl | he'
              · rw [hred]; exact List.mem_cons_self _ _
              · rw [hred]; exact List.mem_cons_of_mem _ (ih1 e' he' hf' hsz' hw')
            · intro fi hfi
              rw [hred] at hfi
              rcases List.mem_cons.mp hfi with rfl | hfi
              · exact Nat.le_of_not_lt hs
              · exact ih2 fi hfi
            · intro fi hfi
              rw [hred] at hfi
              rcases List.mem_cons.mp hfi with rfl | hfi
              · exact Bool.of_not_eq_true hw
              · exact ih3 fi hfi
      · have hf' : e.header.etype.is_file = false := Bool.of_not_eq_true hf
        have hred : scan_layer H min_size layer_index (e :: es)
            = scan_layer H min_size layer_index es := by
          simp [scan_layer, hf']
        refine ⟨?_, ?_, ?_⟩
        · intro e' he' hfile hsz' hw'
          rcases List.mem_cons.mp he' with rfl | he'
          · rw [hfile] at hf'; cases hf'
          · rw [hred]; exact ih1 e' he' hfile hsz' hw'
        · intro fi hfi; rw [hred] at hfi; exact ih2 fi hfi
        · intro fi hfi; rw [hred] at hfi; exact ih3 fi hfi

/-- A layer with a kept file (size exactly at the threshold), an
undersized file, a whiteout marker above the threshold and a directory. -/
def keepEntry : TarEntry :=
  { header := { path := "app/keep.bin", size := 5, mode := 0o644, uid := 0,
                gid := 0, mtime := 9, etype := .regular, linkName := none },
    content := [1, 2, 3, 4, 5] }

def sampleEntries : List TarEntry :=
  [keepEntry,
   { header := { path := "app/small.bin", size := 4, mode := 0o644, uid := 0,
                 gid := 0, mtime := 9, etype := .regular, linkName := none },
     content := [1, 2, 3, 4] },
   { header := { path := "app/.wh.gone.bin", size := 9, mode := 0o644, uid := 0,
                 gid := 0, mtime := 9, etype := .regular, linkName := none },
     content := [1, 2, 3, 4, 5, 6, 7, 8, 9] },
   { header := { path := "app/", size := 0, mode := 0o755, uid := 0,
                 gid := 0, mtime := 9, etype := .directory, linkName := none },
     content := [] }]

theorem scan_layer_spec_witness :
    ({ path := "app/keep.bin", size := 5, hash := "k", layer_index := 2 } : FileInfo)
      ∈ scan_layer (fun _ => "k") 5 2 sampleEntries ∧
    (∀ fi ∈ scan_layer (fun _ => "k") 5 2 sampleEntries, 5 ≤ fi.size) ∧
    (∀ fi ∈ scan_layer (fun _ => "k") 5 2 sampleEntries,
      isWhiteout fi.path = false) :=
  ⟨(scan_layer_spec (fun _ => "k") 5 2 sampleEntries).1 keepEntry (by decide)
      (by decide) (by decide) (by decide),
   (scan_layer_spec (fun _ => "k") 5 2 sampleEntries).2.1,
   (scan_layer_spec (fun _ => "k") 5 2 sampleEntries).2.2⟩

/-! ## C2: layer rewrite fidelity -/

/-- **C2**: for a layer with a non-empty transaction list,
`build_layer_tar` copies every original entry whose path is not a
transaction target unchanged (header and content) in its original relative
order, drops every targeted entry, and after all copied entries appends
exactly one link entry per transaction — in transaction order — whose
entry name is the transaction's target path and whose link target is the
original's archive-relative path. -/
theorem build_layer_tar_spec (entries : List TarEntry)
    (mods : List DeDupTransaction) (_hmods : mods ≠ []) :
    build_layer_tar entries mods =
      entries.filter
          (fun e => !(mods.any (fun m => m.target_path == e.header.path)))
        ++ mods.map linkEntry ∧
    (∀ m ∈ mods,
      (linkEntry m).header.path = m.target_path ∧
      (linkEntry m).header.linkName = some m.original_path) := by
  refine ⟨?_, ?_⟩
  · unfold build_layer_tar appendLinks
    rw [copyEntries_eq_filter]
  · intro m _
    cases h : m.link_type <;> simp [linkEntry, h]

/-- One transaction replacing `app/keep.bin` by a link to
`base/orig.bin`. -/
def sampleMods : List DeDupTransaction :=
  [{ layer := 2, original_path := "base/orig.bin", target_path := "app/keep.bin",
     link_type := LinkType.Sym }]

theorem build_layer_tar_spec_witness :
    build_layer_tar sampleEntries sampleMods =
      sampleEntries.filter
          (fun e => !(sampleMods.any (fun m => m.target_path == e.header.path)))
        ++ sampleMods.map linkEntry ∧
    (∀ m ∈ sampleMods,
      (linkEntry m).header.path = m.target_path ∧
      (linkEntry m).header.linkName = some m.original_path) :=
  build_layer_tar_spec sampleEntries sampleMods (by decide)

/-! ## C4: link entry metadata (corrected: the mode is `0o777`, so the
executable bits ARE set) -/

/-- A sample transaction for exercising the link-entry metadata. -/
def c4trans : DeDupTransaction :=
  { layer := 1, original_path := "usr/share/orig.bin",
    target_path := "opt/dup.bin", link_type := LinkType.Sym }

/-- **C4 counterexample**: the claim says the appended link entries have a
mode with the executable bit not set, but `build_layer_tar` sets
`header.set_mode(0o777)`, whose executable bits (`0o111`) are all set.
Ownership and timestamp are fixed as claimed; the mode conjunct fails. -/
theorem linkEntry_exec_bits_set :
    build_layer_tar [] [c4trans] = [linkEntry c4trans] ∧
    (linkEntry c4trans).header.mode = 0o777 ∧
    ¬ ((linkEntry c4trans).header.mode &&& 0o111 = 0) := by
  decide

/-- **C4 amended**: every link entry appended by the layer rewriter has
fixed root ownership (uid 0, gid 0), the fixed reproducible timestamp 0,
symlink entry type, and the fixed mode `0o777` — whose executable bits are
set — for every transaction, in both the `Hardlink` and `Symlink` cases. -/
theorem link_entries_fixed_metadata (mods : List DeDupTransaction)
    (e : TarEntry) (he : e ∈ appendLinks mods) :
    e.header.uid = 0 ∧ e.header.gid = 0 ∧ e.header.mtime = 0 ∧
    e.header.mode = 0o777 ∧ e.header.etype = TarEntryType.symlink := by
  obtain ⟨m, _, rfl⟩ := List.mem_map.mp he
  cases h : m.link_type <;> simp [linkEntry, h]

/-- The same transaction with the other link kind. -/
def c4transHard : DeDupTransaction :=
  { layer := 1, original_path := "usr/share/orig.bin",
    target_path := "opt/dup.bin", link_type := LinkType.Hard }

theorem link_entries_fixed_metadata_witness :
    ((linkEntry c4trans).header.uid = 0 ∧ (linkEntry c4trans).header.gid = 0 ∧
      (linkEntry c4trans).header.mtime = 0 ∧
      (linkEntry c4trans).header.mode = 0o777 ∧
      (linkEntry c4trans).header.etype = TarEntryType.symlink) ∧
    ((linkEntry c4transHard).header.uid = 0 ∧
      (linkEntry c4transHard).header.gid = 0 ∧
      (linkEntry c4transHard).header.mtime = 0 ∧
      (linkEntry c4transHard).header.mode = 0o777 ∧
      (linkEntry c4transHard).header.etype = TarEntryType.symlink) :=
  ⟨link_entries_fixed_metadata [c4trans, c4transHard] (linkEntry c4trans)
      (by decide),
   link_entries_fixed_metadata [c4trans, c4transHard] (linkEntry c4transHard)
      (by decide)⟩

/-! ## C9: the link kind does not influence the output bytes -/

/-- Two transactions that agree except possibly in their link kind. -/
def sameUpToKind (m m' : DeDupTransaction) : Prop :=
  m.layer = m'.layer ∧ m.original_path = m'.original_path ∧
    m.target_path = m'.target_path

theorem linkEntry_kind_irrelevant {m m' : DeDupTransaction}
    (h : sameUpToKind m m') : linkEntry m = linkEntry m' := by
  obtain ⟨_, h2, h3⟩ := h
  cases hk : m.link_type <;> cases hk' : m'.link_type <;>
    simp [linkEntry, hk, hk', h2, h3]

theorem any_target_congr {mods mods' : List DeDupTransaction}
    (h : List.Forall₂ sameUpToKind mods mods') (p : String) :
    mods.any (fun m => m.target_path == p)
      = mods'.any (fun m => m.target_path == p) := by
  induction h with
  | nil => rfl
  | cons hrel _ ih => simp [List.any_cons, hrel.2.2, ih]

/-- **C9**: the output of `build_layer_tar` is unchanged when any
transaction's link kind is replaced by the other kind: for any two
transaction lists equal up to link kinds, the produced archives are
identical in every entry — both kinds are written as the same symlink-type
entry with identical header fields and link target. -/
theorem build_layer_tar_kind_irrelevant (entries : List TarEntry)
    {mods mods' : List DeDupTransaction}
    (h : List.Forall₂ sameUpToKind mods mods') :
    build_layer_tar entries mods = build_layer_tar entries mods' := by
  unfold build_layer_tar appendLinks
  rw [copyEntries_eq_filter, copyEntries_eq_filter]
  congr 1
  · apply List.filter_congr
    intro e _
    rw [any_target_congr h]
  · induction h with
    | nil => rfl
    | cons hrel _ ih => simp [List.map_cons, linkEntry_kind_irrelevant hrel, ih]

theorem build_layer_tar_kind_irrelevant_witness :
    build_layer_tar sampleEntries [c4trans]
      = build_layer_tar sampleEntries [c4transHard] :=
  build_layer_tar_kind_irrelevant sampleEntries
    (List.Forall₂.cons ⟨rfl, rfl, rfl⟩ List.Forall₂.nil)

/-! ## Structure of `find_duplicates` members -/

/-- Every `DuplicateInfo` produced by `find_duplicates` decomposes a
fingerprint group: its original is the head and its duplicates the tail of
the layer-sorted group, and the savings are the original's size times the
number of remaining members. -/
theorem mem_find_duplicates {files : List FileInfo} {ko : List String}
    {d : DuplicateInfo} (hd : d ∈ find_duplicates files ko) :
    ∃ h, h ∈ ko ∧ 1 < (groupFor files h).length ∧
      sortByLayer (groupFor files h) = d.original :: d.duplicates ∧
      d.total_savings = d.original.size * d.duplicates.length := by
  unfold find_duplicates at hd
  rw [(List.perm_insertionSort savingsGE _).mem_iff] at hd
  obtain ⟨g, hg, hdg⟩ := List.mem_map.mp hd
  obtain ⟨hgmem, hglen⟩ := List.mem_filter.mp hg
  obtain ⟨h, hko, hgh⟩ := List.mem_map.mp hgmem
  subst hgh
  have hlen : 1 < (groupFor files h).length := of_decide_eq_true hglen
  have hlen' : 1 < (sortByLayer (groupFor files h)).length := by
    have := (List.perm_insertionSort layerLE (groupFor files h)).length_eq
    unfold sortByLayer
    omega
  rcases hsort : sortByLayer (groupFor files h) with _ | ⟨t, rest⟩
  · rw [hsort] at hlen'; simp at hlen'
  · have hd' : d = DuplicateInfo.mk t rest (t.size * rest.length) := by
      rw [← hdg]
      unfold mkDupInfo
      rw [hsort]
    subst hd'
    exact ⟨h, hko, hlen, hsort, rfl⟩

/-! ## C3: grouping invariants -/

/-- **C3**: for every `DuplicateInfo` returned by `find_duplicates` (under
any hash-map key iteration order): it has at least one duplicate (so the
group has at least two members), the original's layer index is minimal
among the members, the savings equal the original's size times the number
of duplicates, and — whenever the scanned `FileInfo` records are pairwise
distinct, which models the object-identity reading of the claim — the
original is not an element of its own duplicate list. -/
theorem find_duplicates_invariants (files : List FileInfo) (ko : List String)
    (d : DuplicateInfo) (hd : d ∈ find_duplicates files ko) :
    1 ≤ d.duplicates.length ∧
    (∀ f ∈ d.duplicates, d.original.layer_index ≤ f.layer_index) ∧
    d.total_savings = d.original.size * d.duplicates.length ∧
    (files.Nodup → d.original ∉ d.duplicates) := by
  obtain ⟨h, _, hlen, hsort, hsav⟩ := mem_find_duplicates hd
  refine ⟨?_, ?_, hsav, ?_⟩
  · have hperm := (List.perm_insertionSort layerLE (groupFor files h)).length_eq
    have : (sortByLayer (groupFor files h)).length
        = (groupFor files h).length := hperm
    rw [hsort] at this
    simp only [List.length_cons] at this
    omega
  · intro f hf
    have hsorted : List.Sorted layerLE (sortByLayer (groupFor files h)) :=
      List.sorted_insertionSort layerLE (groupFor files h)
    rw [hsort] at hsorted
    have := (List.sorted_cons.mp hsorted).1 f hf
    simpa [layerLE] using this
  · intro hnd
    have hgnd : (groupFor files h).Nodup := hnd.filter _
    have hsnd : (sortByLayer (groupFor files h)).Nodup :=
      ((List.perm_insertionSort layerLE (groupFor files h)).nodup_iff).mpr hgnd
    rw [hsort] at hsnd
    exact (List.nodup_cons.mp hsnd).1

/-- Four scanned files forming two duplicate groups with equal savings. -/
def fA1 : FileInfo := { path := "app/a.bin", size := 10, hash := "h1", layer_index := 0 }

def fA2 : FileInfo := { path := "app/b.bin", size := 10, hash := "h1", layer_index := 1 }

def fB1 : FileInfo := { path := "lib/c.bin", size := 10, hash := "h2", layer_index := 0 }

def fB2 : FileInfo := { path := "lib/d.bin", size := 10, hash := "h2", layer_index := 1 }

def sampleFiles : List FileInfo := [fA1, fA2, fB1, fB2]

theorem find_duplicates_invariants_witness :
    1 ≤ ({ original := fA1, duplicates := [fA2], total_savings := 10 } :
        DuplicateInfo).duplicates.length ∧
    (∀ f ∈ ({ original := fA1, duplicates := [fA2], total_savings := 10 } :
        DuplicateInfo).duplicates,
      ({ original := fA1, duplicates := [fA2], total_savings := 10 } :
        DuplicateInfo).original.layer_index ≤ f.layer_index) ∧
    ({ original := fA1, duplicates := [fA2], total_savings := 10 } :
        DuplicateInfo).total_savings
      = ({ original := fA1, duplicates := [fA2], total_savings := 10 } :
        DuplicateInfo).original.size
        * ({ original := fA1, duplicates := [fA2], total_savings := 10 } :
        DuplicateInfo).duplicates.length ∧
    (sampleFiles.Nodup →
      ({ original := fA1, duplicates := [fA2], total_savings := 10 } :
        DuplicateInfo).original
        ∉ ({ original := fA1, duplicates := [fA2], total_savings := 10 } :
        DuplicateInfo).duplicates) :=
  find_duplicates_invariants sampleFiles ["h1", "h2"]
    { original := fA1, duplicates := [fA2], total_savings := 10 } (by decide)

/-! ## C5: output ordering (corrected: ties follow the hash map's
iteration order, which is not deterministic across runs) -/

/-- **C5 counterexample**: two valid `HashMap` key iteration orders over
the same scanned files — both possible in distinct runs, since the standard
library's hasher is randomly seeded per map — make `find_duplicates`
return the two equal-savings groups in different sequences, so the output
sequence is not a function of the layers alone. -/
theorem find_duplicates_order_nondeterministic :
    validKeyOrder sampleFiles ["h1", "h2"] = true ∧
    validKeyOrder sampleFiles ["h2", "h1"] = true ∧
    find_duplicates sampleFiles ["h1", "h2"]
      ≠ find_duplicates sampleFiles ["h2", "h1"] := by
  decide

/-- **C5 amended**: `find_duplicates` returns its list sorted by descending
`total_savings` (`savingsGE`); the relative order of entries with equal
savings follows the hash map's key iteration order and is therefore not
deterministic across runs. -/
theorem find_duplicates_sorted (files : List FileInfo) (ko : List String) :
    List.Sorted savingsGE (find_duplicates files ko) := by
  unfold find_duplicates
  exact List.sorted_insertionSort savingsGE _

/-! ## C7: link plan completeness and grouping -/

theorem planPairs_eq (dups : List DuplicateInfo) :
    planPairs dups = (allTrans dups).map (fun t => (t.layer, t)) := by
  unfold planPairs allTrans
  induction dups with
  | nil => rfl
  | cons d ds ih =>
      simp only [List.flatMap_cons, List.map_append, ih, List.map_map]
      rfl

theorem plan_eq_filter (dups : List DuplicateInfo) (k : Nat) :
    generate_modification_plan dups k =
      (allTrans dups).filter (fun t => t.layer == k) := by
  unfold generate_modification_plan
  rw [planPairs_eq]
  induction allTrans dups with
  | nil => rfl
  | cons t ts ih =>
      by_cases h : t.layer == k
      · simp [List.filter_cons, h, ih]
      · simp [List.filter_cons, h, ih]

/-- **C7**: `generate_modification_plan`, applied to the groups found by
`find_duplicates`, emits exactly one transaction per duplicate member of
every group — `allTrans` lists them, one per `(group, duplicate)` pair —
with the member's `(layer, path)` as target and the group original's path
as source; the link kind is `Hard` exactly when the duplicate shares the
original's layer; the returned map groups the transactions under their
target layer index; and (when no two scanned files share a
`(layer_index, path)` pair) no group's original ever appears as a
transaction target. -/
theorem generate_modification_plan_spec (files : List FileInfo)
    (ko : List String) (k : Nat)
    (hpairs : (files.map (fun f => (f.layer_index, f.path))).Nodup) :
    (generate_modification_plan (find_duplicates files ko) k
      = (allTrans (find_duplicates files ko)).filter (fun t => t.layer == k)) ∧
    (∀ t ∈ generate_modification_plan (find_duplicates files ko) k,
      t.layer = k) ∧
    (∀ d ∈ find_duplicates files ko, ∀ f ∈ d.duplicates,
      (mkTrans d f).layer = f.layer_index ∧
      (mkTrans d f).target_path = f.path ∧
      (mkTrans d f).original_path = d.original.path ∧
      ((mkTrans d f).link_type = LinkType.Hard ↔
        d.original.layer_index = f.layer_index)) ∧
    (∀ t ∈ generate_modification_plan (find_duplicates files ko) k,
      ∀ d ∈ find_duplicates files ko,
        ¬ (t.layer = d.original.layer_index ∧
           t.target_path = d.original.path)) := by
  refine ⟨plan_eq_filter _ k, ?_, ?_, ?_⟩
  · intro t ht
    rw [plan_eq_filter] at ht
    have := (List.mem_filter.mp ht).2
    exact eq_of_beq this
  · intro d _ f _
    refine ⟨rfl, rfl, rfl, ?_⟩
    by_cases h : d.original.layer_index = f.layer_index
    · simp [mkTrans, h]
    · simp [mkTrans, h]
  · intro t ht d' hd'
    rintro ⟨hlay, hpath⟩
    rw [plan_eq_filter] at ht
    have ht' := List.mem_of_mem_filter ht
    unfold allTrans at ht'
    obtain ⟨dB, hdB, htB⟩ := List.mem_flatMap.mp ht'
    obtain ⟨f, hf, rfl⟩ := List.mem_map.mp htB
    obtain ⟨hB, _, _, hBsort, _⟩ := mem_find_duplicates hdB
    obtain ⟨hD, _, _, hDsort, _⟩ := mem_find_duplicates hd'
    have hfmem : f ∈ sortByLayer (groupFor files hB) := by
      rw [hBsort]; exact List.mem_cons_of_mem _ hf
    have hfg : f ∈ groupFor files hB :=
      ((List.perm_insertionSort layerLE (groupFor files hB)).mem_iff).mp hfmem
    have hffiles : f ∈ files := List.mem_of_mem_filter hfg
    have hfhash : f.hash = hB := by
      have := (List.mem_filter.mp hfg).2
      exact eq_of_beq this
    have homem : d'.original ∈ sortByLayer (groupFor files hD) := by
      rw [hDsort]; exact List.mem_cons_self _ _
    have hog : d'.original ∈ groupFor files hD :=
      ((List.perm_insertionSort layerLE (groupFor files hD)).mem_iff).mp homem
    have hofiles : d'.original ∈ files := List.mem_of_mem_filter hog
    have hohash : d'.original.hash = hD := by
      have := (List.mem_filter.mp hog).2
      exact eq_of_beq this
    have hpair : (f.layer_index, f.path)
        = (d'.original.layer_index, d'.original.path) := by
      have h1 : f.layer_index = d'.original.layer_index := hlay
      have h2 : f.path = d'.original.path := hpath
      rw [h1, h2]
    have hfeq : f = d'.original :=
      List.inj_on_of_nodup_map hpairs hffiles hofiles hpair
    have hkey : hB = hD := by rw [← hfhash, hfeq, hohash]
    have hsame : sortByLayer (groupFor files hB)
        = d'.original :: d'.duplicates := by rw [hkey]; exact hDsort
    rw [hBsort] at hsame
    injection hsame with h1 h2
    have horig_in : d'.original ∈ d'.duplicates := by
      rw [← h2, ← hfeq]; exact hf
    have hnd : files.Nodup := List.Nodup.of_map _ hpairs
    have hgnd : (groupFor files hD).Nodup := hnd.filter _
    have hsnd : (sortByLayer (groupFor files hD)).Nodup :=
      ((List.perm_insertionSort layerLE (groupFor files hD)).nodup_iff).mpr hgnd
    rw [hDsort] at hsnd
    exact (List.nodup_cons.mp hsnd).1 horig_in

theorem generate_modification_plan_spec_witness :
    (generate_modification_plan (find_duplicates sampleFiles ["h1", "h2"]) 1
      = (allTrans (find_duplicates sampleFiles ["h1", "h2"])).filter
          (fun t => t.layer == 1)) ∧
    (∀ t ∈ generate_modification_plan
        (find_duplicates sampleFiles ["h1", "h2"]) 1, t.layer = 1) ∧
    (∀ d ∈ find_duplicates sampleFiles ["h1", "h2"], ∀ f ∈ d.duplicates,
      (mkTrans d f).layer = f.layer_index ∧
      (mkTrans d f).target_path = f.path ∧
      (mkTrans d f).original_path = d.original.path ∧
      ((mkTrans d f).link_type = LinkType.Hard ↔
        d.original.layer_index = f.layer_index)) ∧
    (∀ t ∈ generate_modification_plan
        (find_duplicates sampleFiles ["h1", "h2"]) 1,
      ∀ d ∈ find_duplicates sampleFiles ["h1", "h2"],
        ¬ (t.layer = d.original.layer_index ∧
           t.target_path = d.original.path)) :=
  generate_modification_plan_spec sampleFiles ["h1", "h2"] 1 (by decide)

/-! ## C1: blob-store consistency of the staged output (code bug in the
`no_compression` mode) -/

/-- A concrete one-layer image with one planned transaction, processed
with compression disabled.  The abstract SHA-256 and serializer are
instantiated with trivial concrete functions — the failure does not depend
on them, since in the `no_compression` branch `update_manifest` writes no
blob at all. -/
def c1input : LayerInput :=
  { layer := { path := "extracted/layer0.tar", layer_index := 0,
               hash := "sha256:origdiff" },
    diskBytes := [1, 2, 3],
    entries := sampleEntries }

def c1plan : Nat → Option (List DeDupTransaction) := fun k =>
  if k == 0 then some sampleMods else none

def c1manifest : Manifest :=
  { config := "config.json", repo_tags := ["orig:latest"],
    layers := ["layer0.tar"] }

def c1config : DockerConfig :=
  { architecture := "amd64", os := "linux",
    rootfs := { fs_type := "layers", diff_ids := ["sha256:origdiff"] } }

def c1staged : StagedImage :=
  create_deduplicated_image (fun _ => "ABCD") id (fun _ => [0]) true
    [c1input] c1plan c1manifest c1config

/-- **C1 (code bug)**: after `create_deduplicated_image` succeeds in the
`no_compression` mode, the rewritten manifest's layer reference
(`blobs/sha256/sha256:<hex>`, note the doubled prefix) points at a path at
which the staged output tree holds no blob at all: the `no_compression`
branch of `update_manifest` records the reference but never copies the
layer bytes into the blob store, so the claimed blob with a
digest-matching filename does not exist. -/
theorem no_compression_blob_missing :
    c1staged.manifest.layers = ["blobs/sha256/sha256:ABCD"] ∧
    c1staged.config.rootfs.diff_ids = ["sha256:ABCD"] ∧
    c1staged.blobs = [] ∧
    c1staged.blobs.lookup "blobs/sha256/sha256:ABCD" = none := by
  decide

/-! ## C10: short `diff_ids` lists are padded with empty strings -/

theorem load_layers_from_length (extracted : String) (diff_ids : List String) :
    ∀ (ls : List String) (start : Nat),
      (load_layers_from extracted diff_ids start ls).length = ls.length := by
  intro ls
  induction ls with
  | nil => intro start; rfl
  | cons l ls ih =>
      intro start
      simp [load_layers_from, ih]

theorem load_layers_from_get? (extracted : String) (diff_ids : List String) :
    ∀ (ls : List String) (start idx : Nat),
      (load_layers_from extracted diff_ids start ls).get? idx =
        (ls.get? idx).map (fun l =>
          { path := extracted ++ "/" ++ l, layer_index := start + idx,
            hash := diff_ids.getD (start + idx) "" }) := by
  intro ls
  induction ls with
  | nil => intro start idx; simp [load_layers_from]
  | cons l ls ih =>
      intro start idx
      cases idx with
      | zero => simp [load_layers_from]
      | succ n =>
          simp only [load_layers_from, List.get?_cons_succ]
          rw [ih (start + 1) n]
          have : start + 1 + n = start + (n + 1) := by omega
          rw [this]

theorem getD_of_length_le : ∀ (l : List String) (n : Nat),
    l.length ≤ n → l.getD n "" = "" := by
  intro l
  induction l with
  | nil => intro n _; cases n <;> rfl
  | cons s l ih =>
      intro n hn
      cases n with
      | zero => simp at hn
      | succ m =>
          simp only [List.getD_cons_succ]
          exact ih m (by simpa using hn)

/-- **C10**: when the loaded config's `rootfs.diff_ids` list is shorter
than the manifest's layer list, `load_from_tar` still succeeds — the layer
construction is total, producing one `Layer` per manifest reference — and
records the empty string as the digest of each layer past the end of
`diff_ids`; if such a layer is passed through without rewriting (its index
has no plan entry), the empty string is written into the output config's
`diff_ids` at that index. -/
theorem short_diff_ids_give_empty_hash (extracted : String)
    (manifest : Manifest) (config : DockerConfig) (idx : Nat)
    (hshort : config.rootfs.diff_ids.length ≤ idx)
    (hidx : idx < manifest.layers.length)
    (sha : List Nat → String) (gzc : List Nat → List Nat)
    (tarSer : List TarEntry → List Nat) (no_compression : Bool)
    (bytesOf : Nat → List Nat) (entriesOf : Nat → List TarEntry)
    (plan : Nat → Option (List DeDupTransaction)) (hplan : plan idx = none) :
    (load_layers extracted manifest config).length
      = manifest.layers.length ∧
    (∃ l, (load_layers extracted manifest config).get? idx = some l ∧
      l.hash = "") ∧
    (create_deduplicated_image sha gzc tarSer no_compression
        ((load_layers extracted manifest config).map
          (fun l => { layer := l, diskBytes := bytesOf l.layer_index,
                      entries := entriesOf l.layer_index }))
        plan manifest config).config.rootfs.diff_ids.get? idx
      = some "" := by
  have hlen := load_layers_from_length extracted config.rootfs.diff_ids
    manifest.layers 0
  obtain ⟨ml, hml⟩ : ∃ ml, manifest.layers.get? idx = some ml := by
    rw [List.get?_eq_get hidx]; exact ⟨_, rfl⟩
  have hget : (load_layers extracted manifest config).get? idx
      = some { path := extracted ++ "/" ++ ml, layer_index := idx,
               hash := "" } := by
    unfold load_layers
    rw [load_layers_from_get? extracted config.rootfs.diff_ids
      manifest.layers 0 idx, hml]
    simp only [Option.map_some', Nat.zero_add]
    rw [getD_of_length_le config.rootfs.diff_ids idx hshort]
  refine ⟨hlen, ⟨_, hget, rfl⟩, ?_⟩
  show (update_config config
      (newLayers sha gzc tarSer no_compression _ plan)).rootfs.diff_ids.get? idx
    = some ""
  unfold update_config newLayers
  simp only [List.get?_map, hget, Option.map_some']
  rw [hplan]

theorem short_diff_ids_give_empty_hash_witness :
    (load_layers "x" (Manifest.mk "cfg.json" [] ["l0.tar"])
        (DockerConfig.mk "amd64" "linux" (RootFs.mk "layers" []))).length
      = (Manifest.mk "cfg.json" [] ["l0.tar"]).layers.length ∧
    (∃ l, (load_layers "x" (Manifest.mk "cfg.json" [] ["l0.tar"])
        (DockerConfig.mk "amd64" "linux" (RootFs.mk "layers" []))).get? 0
        = some l ∧ l.hash = "") ∧
    (create_deduplicated_image (fun _ => "D") id (fun _ => []) false
        ((load_layers "x" (Manifest.mk "cfg.json" [] ["l0.tar"])
            (DockerConfig.mk "amd64" "linux" (RootFs.mk "layers" []))).map
          (fun l => { layer := l, diskBytes := [], entries := [] }))
        (fun _ => none) (Manifest.mk "cfg.json" [] ["l0.tar"])
        (DockerConfig.mk "amd64" "linux"
          (RootFs.mk "layers" []))).config.rootfs.diff_ids.get? 0
      = some "" :=
  short_diff_ids_give_empty_hash "x" (Manifest.mk "cfg.json" [] ["l0.tar"])
    (DockerConfig.mk "amd64" "linux" (RootFs.mk "layers" [])) 0
    (by decide) (by decide) (fun _ => "D") id (fun _ => []) false
    (fun _ => []) (fun _ => []) (fun _ => none) rfl

end DedupSpec
